import Mathlib

/-!
Shallow embedding of the multi-source vehicle-listing aggregation engine
(`backend/tools/scraper_tool.py`, `backend/tools/scrapers/*.py`).

Python strings are modelled at the ASCII level (`str.lower`, `str.strip`,
`str.replace`, and the regular expressions used by the scrapers only act on
ASCII data in this code base); Python `float` prices are modelled as `ℚ`
(the listing prices are decimal literals; IEEE rounding, `inf` and `nan` are
outside the model), and Python `int(x)` on a float is integer truncation
toward zero.
-/

/-- Model of Python `str.lower` on one ASCII character. -/
def ascii_lower (c : Char) : Char :=
  match c with
  | 'A' => 'a' | 'B' => 'b' | 'C' => 'c' | 'D' => 'd' | 'E' => 'e'
  | 'F' => 'f' | 'G' => 'g' | 'H' => 'h' | 'I' => 'i' | 'J' => 'j'
  | 'K' => 'k' | 'L' => 'l' | 'M' => 'm' | 'N' => 'n' | 'O' => 'o'
  | 'P' => 'p' | 'Q' => 'q' | 'R' => 'r' | 'S' => 's' | 'T' => 't'
  | 'U' => 'u' | 'V' => 'v' | 'W' => 'w' | 'X' => 'x' | 'Y' => 'y'
  | 'Z' => 'z'
  | c => c

/-- Model of Python `str.lower` (ASCII fragment). -/
def py_lower (s : String) : String := ⟨s.data.map ascii_lower⟩

/-- Strip whitespace from both ends of a character list. -/
def py_strip_chars (l : List Char) : List Char :=
  ((l.dropWhile Char.isWhitespace).reverse.dropWhile Char.isWhitespace).reverse

/-- Model of Python `str.strip()`. -/
def py_strip (s : String) : String := ⟨py_strip_chars s.data⟩

/-- Model of Python `str.replace(pat, repl)`: replace every non-overlapping
occurrence of `pat`, scanning left to right; the replacement text is not
rescanned.  The `Nat` argument is fuel, initialised to the length of the
string, which bounds the number of scanning steps. -/
def py_replace_aux (pat repl : List Char) : Nat → List Char → List Char
  | _, [] => []
  | 0, s => s
  | n + 1, c :: t =>
    if !pat.isEmpty && pat.isPrefixOf (c :: t) then
      repl ++ py_replace_aux pat repl n ((c :: t).drop pat.length)
    else
      c :: py_replace_aux pat repl n t

/-- Model of Python `s.replace(pat, repl)` (for nonempty `pat`). -/
def py_replace (s pat repl : String) : String :=
  ⟨py_replace_aux pat.data repl.data s.data.length s.data⟩

/-- Numeric value of a list of decimal digit characters. -/
def digits_val (l : List Char) : Nat :=
  l.foldl (fun a c => 10 * a + (c.toNat - 48)) 0

/-- Model of the regex word-character class `\w` (ASCII fragment). -/
def is_word_char (c : Char) : Bool := c.isAlphanum || c == '_'

/-- Does a 4-character year token `(19|20)\d{2}` match here, with `\b`
word boundaries on both sides?  `prev` is the character preceding the
candidate position (`none` at the start of the string), `rest` is what
follows the four candidate characters. -/
def year_match (prev : Option Char) (a b c d : Char) (rest : List Char) : Bool :=
  (match prev with | none => true | some p => !is_word_char p) &&
  ((a == '1' && b == '9') || (a == '2' && b == '0')) &&
  c.isDigit && d.isDigit &&
  (match rest with | [] => true | r :: _ => !is_word_char r)

/-- Leftmost match of the regex `\b(19|20)\d{2}\b` under `re.search`, as a number. -/
def find_year_aux : Option Char → List Char → Option Nat
  | _, [] => none
  | prev, a :: b :: c :: d :: rest =>
    if year_match prev a b c d rest then some (digits_val [a, b, c, d])
    else find_year_aux (some a) (b :: c :: d :: rest)
  | _, _ => none

/-- Model of `re.sub` deleting the regex `\b(19|20)\d{2}\b` on a character list:
remove every non-overlapping word-bounded year token, scanning left to
right (boundaries are judged on the original characters). -/
def sub_years_aux : Option Char → List Char → List Char
  | _, [] => []
  | prev, a :: b :: c :: d :: rest =>
    if year_match prev a b c d rest then sub_years_aux (some d) rest
    else a :: sub_years_aux (some a) (b :: c :: d :: rest)
  | _, l => l

/-- Model of `re.sub` deleting every `\b(19|20)\d{2}\b` match of `s`. -/
def sub_years (s : String) : String := ⟨sub_years_aux none s.data⟩

/-- The rational `sign * m * 10 ^ e`, assembled from integer arithmetic
only (`Rat.divInt`), so that concrete values kernel-reduce. -/
def decimal_value (sign m e : ℤ) : ℚ :=
  if 0 ≤ e then ((sign * m * 10 ^ e.toNat : ℤ) : ℚ)
  else Rat.divInt (sign * m) (10 ^ (-e).toNat)

/-- Model of Python `float(s)` on stripped numeric text: optional sign,
digits with an optional fractional part (at least one digit overall), and
an optional exponent.  Returns `none` where Python `float` raises
`ValueError`.  (`inf`/`nan` forms and `_` digit separators are outside the
model.)  The mathematical value `sign * mantissa * 10 ^ exponent` is
assembled by `decimal_value` from integer data. -/
def parse_decimal_tail (sign : ℤ) (cs : List Char) : Option ℚ :=
  let intPart := cs.takeWhile Char.isDigit
  let afterInt := cs.dropWhile Char.isDigit
  let fracPart : List Char :=
    match afterInt with
    | '.' :: t => t.takeWhile Char.isDigit
    | _ => []
  let afterFrac : List Char :=
    match afterInt with
    | '.' :: t => t.dropWhile Char.isDigit
    | t => t
  if intPart.isEmpty && fracPart.isEmpty then none
  else
    let m : ℤ := digits_val (intPart ++ fracPart)
    match afterFrac with
    | [] => some (decimal_value sign m (-(fracPart.length : ℤ)))
    | e :: t =>
      if e == 'e' || e == 'E' then
        let step2 : ℤ × List Char :=
          match t with
          | '+' :: t2 => (1, t2)
          | '-' :: t2 => (-1, t2)
          | t2 => (1, t2)
        let expDigits := step2.2.takeWhile Char.isDigit
        let afterExp := step2.2.dropWhile Char.isDigit
        if expDigits.isEmpty || !afterExp.isEmpty then none
        else some (decimal_value sign m (step2.1 * (digits_val expDigits : ℤ) - (fracPart.length : ℤ)))
      else none

/-- Model of Python `float(s)`: strip the optional leading sign, then
parse the digit string via `parse_decimal_tail`. -/
def parse_decimal (s : String) : Option ℚ :=
  match s.data with
  | '+' :: t => parse_decimal_tail 1 t
  | '-' :: t => parse_decimal_tail (-1) t
  | t => parse_decimal_tail 1 t

/-- Model of Python `int(x)` on a float value: truncation toward zero. -/
def py_int (q : ℚ) : ℤ := if 0 ≤ q then ⌊q⌋ else ⌈q⌉

/-- `BaseScraper._parse_price`, the cleaning pipeline: lower-case, remove
the tokens `rs.`, `rs`, `lkr` and the commas (in that order), strip. -/
def clean_price (s : String) : String :=
  py_strip (py_replace (py_replace (py_replace (py_replace (py_lower s) "rs." "") "rs" "") "lkr" "") "," "")

/-- `BaseScraper._parse_price`: parse the cleaned text as a decimal number;
any failure yields `0.0`. -/
def parse_price (s : String) : ℚ := (parse_decimal (clean_price s)).getD 0

/-- `BaseScraper._parse_year`: first word-bounded `(19|20)\d{2}` token of
the string, `0` if there is none. -/
def parse_year (s : String) : ℤ :=
  match find_year_aux none s.data with
  | some n => (n : ℤ)
  | none => 0

/-- A standardized vehicle listing, as produced by
`BaseScraper._standardize_vehicle` (all fields always present). -/
structure Listing where
  title : String
  price : ℚ
  year : ℤ
  make : String
  model : String
  mileage : String
  condition : String
  location : String
  url : String
  source : String
  image_url : String
deriving DecidableEq, Repr

/-- A raw listing as handed to the Standardizer: a string-valued dict in
which any key may be absent (`none`). -/
structure RawListing where
  title : Option String := none
  price : Option String := none
  year : Option String := none
  make : Option String := none
  model : Option String := none
  mileage : Option String := none
  condition : Option String := none
  location : Option String := none
  url : Option String := none
  source : Option String := none
  image_url : Option String := none
deriving DecidableEq, Repr

/-- `BaseScraper._standardize_vehicle`: substitute the fixed defaults for
missing keys, parse price and year, pass everything else through. -/
def standardize_vehicle (raw : RawListing) : Listing where
  title := raw.title.getD ""
  price := parse_price (raw.price.getD "")
  year := parse_year (raw.year.getD "")
  make := raw.make.getD ""
  model := raw.model.getD ""
  mileage := raw.mileage.getD "N/A"
  condition := raw.condition.getD "N/A"
  location := raw.location.getD "N/A"
  url := raw.url.getD ""
  source := raw.source.getD ""
  image_url := raw.image_url.getD ""

/-- The dedup identity key of `VehicleScraperTool._deduplicate_vehicles`:
the lower-cased stripped title paired with the truncated price. -/
def vehicle_key (v : Listing) : String × ℤ :=
  (py_strip (py_lower v.title), py_int v.price)

/-- The loop body of `VehicleScraperTool._deduplicate_vehicles`, with the
`seen` set made explicit as the list of keys already added. -/
def dedup_go : List Listing → List (String × ℤ) → List Listing
  | [], _ => []
  | v :: t, seen =>
    if vehicle_key v ∉ seen ∧ 0 < (vehicle_key v).2 then
      v :: dedup_go t (vehicle_key v :: seen)
    else
      dedup_go t seen

/-- `VehicleScraperTool._deduplicate_vehicles`. -/
def deduplicate_vehicles (vehicles : List Listing) : List Listing :=
  dedup_go vehicles []

/-- The sort order of `VehicleScraperTool._sort_vehicles`: Python `sorted`
with key `(price, -year)`, i.e. the lexicographic order on that pair. -/
def vehicle_le (a b : Listing) : Prop :=
  a.price < b.price ∨ (a.price = b.price ∧ -a.year ≤ -b.year)

instance : DecidableRel vehicle_le := fun a b => by
  unfold vehicle_le; infer_instance

instance : IsTotal Listing vehicle_le where
  total a b := by
    unfold vehicle_le
    rcases lt_trichotomy a.price b.price with h | h | h
    · exact Or.inl (Or.inl h)
    · rcases le_total (-a.year) (-b.year) with h2 | h2
      · exact Or.inl (Or.inr ⟨h, h2⟩)
      · exact Or.inr (Or.inr ⟨h.symm, h2⟩)
    · exact Or.inr (Or.inl h)

instance : IsTrans Listing vehicle_le where
  trans a b c hab hbc := by
    unfold vehicle_le at *
    rcases hab with h1 | ⟨e1, y1⟩
    · rcases hbc with h2 | ⟨e2, _⟩
      · exact Or.inl (h1.trans h2)
      · exact Or.inl (e2 ▸ h1)
    · rcases hbc with h2 | ⟨e2, y2⟩
      · exact Or.inl (e1 ▸ h2)
      · exact Or.inr ⟨e1.trans e2, y1.trans y2⟩

/-- `VehicleScraperTool._sort_vehicles`: the stable Python `sorted` with key
`(price, -year)`; modelled by the (stable) insertion sort over the same
total preorder. -/
def sort_vehicles (vehicles : List Listing) : List Listing :=
  vehicles.insertionSort vehicle_le

/-- The contribution of one source to `search_all`: either a listing list, or
an exception/timeout from `future.result` (carrying its message). -/
abbrev SourceResult := Except String (List Listing)

/-- The collection loop of `search_all`: successful futures extend
`all_vehicles` in source order; a raised exception or timeout is caught,
logged, and contributes nothing. -/
def collect_results : List SourceResult → List Listing
  | [] => []
  | Except.ok vs :: t => vs ++ collect_results t
  | Except.error _ :: t => collect_results t

/-- `VehicleScraperTool.search_all`, as a function of the per-source
outcomes: collect the listings of the non-failed sources in source order, then
deduplicate, then sort.  No exception escapes: every outcome vector maps
to a listing list. -/
def search_all (results : List SourceResult) : List Listing :=
  sort_vehicles (deduplicate_vehicles (collect_results results))

/-- The summary entry of one query in `VehicleScraperTool.compare_vehicles`. -/
structure QuerySummary where
  count : Nat
  avg_price : ℚ
  min_price : ℚ
  max_price : ℚ
  sources : List String
deriving DecidableEq, Repr

/-- Python `min` over a nonempty list, `0` placeholder for the empty list
(matching `min(prices) if prices else 0`). -/
def min_list : List ℚ → ℚ
  | [] => 0
  | x :: xs => xs.foldl min x

/-- Python `max` over a nonempty list, `0` placeholder for the empty list. -/
def max_list : List ℚ → ℚ
  | [] => 0
  | x :: xs => xs.foldl max x

/-- The summary entry built by `compare_vehicles` for one (truthy) listing
list: `count` over all listings, price statistics over the priced subset,
`sources` the distinct sources (Python `list(set(...))`, modelled by
`List.dedup`, which fixes one enumeration order of the set). -/
def make_summary (vehicles : List Listing) : QuerySummary :=
  let prices := (vehicles.filter (fun v => 0 < v.price)).map Listing.price
  { count := vehicles.length
    avg_price := if prices.isEmpty then 0 else prices.sum / (prices.length : ℚ)
    min_price := min_list prices
    max_price := max_list prices
    sources := (vehicles.map Listing.source).dedup }

/-- The result dict of `compare_vehicles`: the vehicles and
summary mappings, as association lists in query order. -/
structure ComparisonResult where
  vehicles : List (String × List Listing)
  summary : List (String × QuerySummary)
deriving Repr

/-- `VehicleScraperTool.compare_vehicles`, as a function of the per-query
per-source outcomes `raw` (each query is searched independently through
`search_all`): every query records its listing list; a query records a
summary entry iff its listing list is non-empty (Python `if vehicles:`). -/
def compare_vehicles (raw : String → List SourceResult) (queries : List String) :
    ComparisonResult where
  vehicles := queries.map fun q => (q, search_all (raw q))
  summary :=
    (queries.filter fun q => !(search_all (raw q)).isEmpty).map
      fun q => (q, make_summary (search_all (raw q)))

/-- Python dict lookup on an association list (first binding wins; with
`compare_vehicles` every binding of a query is identical, so this agrees
with the last-wins overwrite of a Python dict). -/
def lookup_entry {β : Type} (q : String) : List (String × β) → Option β
  | [] => none
  | (k, v) :: t => if k = q then some v else lookup_entry q t

/-- The manufacturer list of `RiyasewanaScraper._extract_make_from_title`
(the "fixed list of known manufacturer names" of the spec). -/
def known_makes : List String :=
  ["Toyota", "Honda", "Nissan", "Suzuki", "Mitsubishi", "Mazda",
   "BMW", "Mercedes", "Benz", "Audi", "Hyundai", "KIA"]

/-- `RiyasewanaScraper._extract_model_from_title`: case-sensitively remove
the five make substrings Toyota, Honda, Nissan, Suzuki, Mitsubishi (in
that order), remove word-bounded `(19|20)\d{2}` tokens, strip. -/
def riyasewana_extract_model (title : String) : String :=
  py_strip (sub_years (["Toyota", "Honda", "Nissan", "Suzuki", "Mitsubishi"].foldl
    (fun s m => py_replace s m "") title))

/-- `IkmanScraper._extract_model_from_title`: the same with Mazda also
removed. -/
def ikman_extract_model (title : String) : String :=
  py_strip (sub_years (["Toyota", "Honda", "Nissan", "Suzuki", "Mitsubishi", "Mazda"].foldl
    (fun s m => py_replace s m "") title))

/-- Modelled from the spec wording of deduplication, for comparison with
the code: walk the list in order; a listing whose key has positive
truncated price is kept and shields every later listing with the same key;
all other listings are dropped. -/
def spec_dedup : List Listing → List Listing
  | [] => []
  | v :: t =>
    if 0 < (vehicle_key v).2 then
      v :: spec_dedup (t.filter fun w => vehicle_key w ≠ vehicle_key v)
    else
      spec_dedup t
termination_by l => l.length
decreasing_by
  · simp only [List.length_cons]
    exact Nat.lt_succ_of_le (List.length_filter_le _ _)
  · simp only [List.length_cons]
    exact Nat.lt_succ_self _

/-- Case-insensitive occurrence test of `pat` at the front of `s`. -/
def ci_match_front (pat s : List Char) : Bool :=
  (s.take pat.length).map ascii_lower == pat.map ascii_lower

/-- Remove every case-insensitive occurrence of `pat` (claim-side helper;
the same left-to-right non-overlapping scan as `py_replace_aux`). -/
def remove_ci_aux (pat : List Char) : Nat → List Char → List Char
  | _, [] => []
  | 0, s => s
  | n + 1, c :: t =>
    if !pat.isEmpty && ci_match_front pat (c :: t) then
      remove_ci_aux pat n ((c :: t).drop pat.length)
    else
      c :: remove_ci_aux pat n t

/-- Remove every case-insensitive occurrence of `pat` from `s`. -/
def remove_ci (s pat : String) : String :=
  ⟨remove_ci_aux pat.data s.data.length s.data⟩

/-- Modelled from the claim wording of model extraction, for comparison
with the code: the title with every name of the fixed manufacturer list
removed case-insensitively and year tokens removed, then trimmed. -/
def claim_extract_model (title : String) : String :=
  py_strip (sub_years (known_makes.foldl (fun s m => remove_ci s m) title))

/-- Modelled from the amended claim wording: remove exactly the substrings
Toyota, Honda, Nissan, Suzuki, Mitsubishi, case-sensitively and in that
order, then the word-bounded year tokens, then trim. -/
def amended_riyasewana_model (title : String) : String :=
  py_strip (sub_years (py_replace (py_replace (py_replace (py_replace (py_replace
    title "Toyota" "") "Honda" "") "Nissan" "") "Suzuki" "") "Mitsubishi" ""))

/-- Modelled from the amended claim wording for the Ikman source: the same
with Mazda removed as well. -/
def amended_ikman_model (title : String) : String :=
  py_strip (sub_years (py_replace (py_replace (py_replace (py_replace (py_replace (py_replace
    title "Toyota" "") "Honda" "") "Nissan" "") "Suzuki" "") "Mitsubishi" "") "Mazda" ""))

/-- A concrete listing for witnesses and counterexamples. -/
def sample_listing (title : String) (price : ℚ) (year : ℤ) (src : String) : Listing where
  title := title
  price := price
  year := year
  make := ""
  model := ""
  mileage := "N/A"
  condition := "Used"
  location := "Colombo"
  url := ""
  source := src
  image_url := ""


/-! ### Supporting lemmas -/

theorem py_int_pos_imp_one_le {q : ℚ} (h : 0 < py_int q) : 1 ≤ q := by
  unfold py_int at h
  split at h
  · exact_mod_cast Int.le_floor.1 h
  · exfalso
    have hq : q ≤ 0 := le_of_not_le (by assumption)
    have : ⌈q⌉ ≤ (0 : ℤ) := Int.ceil_le.2 (by exact_mod_cast hq)
    omega

theorem mem_dedup_go_key_pos :
    ∀ (l : List Listing) (seen : List (String × ℤ)) (v : Listing),
      v ∈ dedup_go l seen → 0 < (vehicle_key v).2 := by
  intro l
  induction l with
  | nil => intro seen v h; simp [dedup_go] at h
  | cons a t ih =>
    intro seen v h
    rw [dedup_go] at h
    split at h
    · rcases List.mem_cons.1 h with rfl | h2
      · next hg => exact hg.2
      · exact ih _ v h2
    · exact ih _ v h

theorem dedup_go_idem :
    ∀ (l : List Listing) (seen : List (String × ℤ)),
      dedup_go (dedup_go l seen) seen = dedup_go l seen := by
  intro l
  induction l with
  | nil => intro seen; simp [dedup_go]
  | cons a t ih =>
    intro seen
    rw [dedup_go]
    split
    · next hg =>
      rw [dedup_go, if_pos hg, ih]
    · exact ih seen

theorem filter_key_notmem_cons (t : List Listing) (k : String × ℤ) (seen : List (String × ℤ)) :
    ((t.filter fun w => vehicle_key w ∉ seen).filter fun w => vehicle_key w ≠ k) =
      t.filter fun w => vehicle_key w ∉ (k :: seen) := by
  rw [List.filter_filter]
  apply List.filter_congr
  intro w _
  by_cases h1 : vehicle_key w ∈ seen <;> by_cases h2 : vehicle_key w = k <;>
    simp [h1, h2, List.mem_cons]

theorem spec_dedup_cons (v : Listing) (t : List Listing) :
    spec_dedup (v :: t) =
      if 0 < (vehicle_key v).2 then
        v :: spec_dedup (t.filter fun w => vehicle_key w ≠ vehicle_key v)
      else spec_dedup t := by
  rw [spec_dedup]

theorem dedup_go_eq_spec :
    ∀ (l : List Listing) (seen : List (String × ℤ)),
      dedup_go l seen = spec_dedup (l.filter fun v => vehicle_key v ∉ seen) := by
  intro l
  induction l with
  | nil => intro seen; simp [dedup_go, spec_dedup]
  | cons a t ih =>
    intro seen
    by_cases hmem : vehicle_key a ∈ seen
    · rw [dedup_go, if_neg (by simp [hmem])]
      simp only [List.filter_cons]
      rw [if_neg (by simp [hmem])]
      exact ih seen
    · rw [dedup_go]
      simp only [List.filter_cons]
      rw [if_pos (show decide (vehicle_key a ∉ seen) = true by simp [hmem]), spec_dedup_cons]
      by_cases hpos : 0 < (vehicle_key a).2
      · rw [if_pos (show vehicle_key a ∉ seen ∧ 0 < (vehicle_key a).2 from ⟨hmem, hpos⟩),
          if_pos hpos, filter_key_notmem_cons, ih (vehicle_key a :: seen)]
      · rw [if_neg (show ¬(vehicle_key a ∉ seen ∧ 0 < (vehicle_key a).2) from fun hc => hpos hc.2),
          if_neg hpos]
        exact ih seen

theorem mem_sort_vehicles {v : Listing} {l : List Listing} :
    v ∈ sort_vehicles l ↔ v ∈ l :=
  (List.perm_insertionSort vehicle_le l).mem_iff

theorem mem_search_all_key_pos {results : List SourceResult} {v : Listing}
    (h : v ∈ search_all results) : 0 < py_int v.price := by
  unfold search_all at h
  have h2 : v ∈ deduplicate_vehicles (collect_results results) := mem_sort_vehicles.1 h
  exact mem_dedup_go_key_pos _ _ v h2

theorem foldl_min_le_start : ∀ (l : List ℚ) (x : ℚ), l.foldl min x ≤ x := by
  intro l
  induction l with
  | nil => intro x; exact le_refl x
  | cons c t ih => intro x; exact (ih (min x c)).trans (min_le_left x c)

theorem foldl_max_start_le : ∀ (l : List ℚ) (x : ℚ), x ≤ l.foldl max x := by
  intro l
  induction l with
  | nil => intro x; exact le_refl x
  | cons c t ih => intro x; exact (le_max_left x c).trans (ih (max x c))

theorem foldl_min_mul_le_sum :
    ∀ (l : List ℚ) (x : ℚ), (l.foldl min x) * (l.length + 1) ≤ x + l.sum := by
  intro l
  induction l with
  | nil => intro x; simp
  | cons c t ih =>
    intro x
    have h1 := ih (min x c)
    have h2 := foldl_min_le_start t (min x c)
    have h3 : min x c ≤ x := min_le_left x c
    have h4 : min x c ≤ c := min_le_right x c
    simp only [List.foldl_cons, List.length_cons, List.sum_cons]
    push_cast
    push_cast at h1
    nlinarith

theorem foldl_max_sum_le :
    ∀ (l : List ℚ) (x : ℚ), x + l.sum ≤ (l.foldl max x) * (l.length + 1) := by
  intro l
  induction l with
  | nil => intro x; simp
  | cons c t ih =>
    intro x
    have h1 := ih (max x c)
    have h2 := foldl_max_start_le t (max x c)
    have h3 : x ≤ max x c := le_max_left x c
    have h4 : c ≤ max x c := le_max_right x c
    simp only [List.foldl_cons, List.length_cons, List.sum_cons]
    push_cast
    push_cast at h1
    nlinarith

theorem min_list_le_avg {l : List ℚ} (h : l ≠ []) :
    min_list l ≤ l.sum / (l.length : ℚ) := by
  obtain ⟨x, xs, rfl⟩ := List.exists_cons_of_ne_nil h
  have hlen : (0 : ℚ) < ((x :: xs).length : ℚ) := by
    simp
    positivity
  rw [le_div_iff₀ hlen]
  have := foldl_min_mul_le_sum xs x
  simp only [min_list, List.length_cons, List.sum_cons]
  push_cast
  push_cast at this
  linarith

theorem avg_le_max_list {l : List ℚ} (h : l ≠ []) :
    l.sum / (l.length : ℚ) ≤ max_list l := by
  obtain ⟨x, xs, rfl⟩ := List.exists_cons_of_ne_nil h
  have hlen : (0 : ℚ) < ((x :: xs).length : ℚ) := by
    simp
    positivity
  rw [div_le_iff₀ hlen]
  have := foldl_max_sum_le xs x
  simp only [max_list, List.length_cons, List.sum_cons]
  push_cast
  push_cast at this
  linarith

theorem lookup_compare_vehicles (raw : String → List SourceResult) :
    ∀ (queries : List String) (q : String), q ∈ queries →
      lookup_entry q (compare_vehicles raw queries).vehicles = some (search_all (raw q)) := by
  intro queries
  induction queries with
  | nil => intro q hq; cases hq
  | cons a t ih =>
    intro q hq
    simp only [compare_vehicles, List.map_cons, lookup_entry]
    by_cases he : a = q
    · subst he; simp
    · rw [if_neg he]
      rcases List.mem_cons.1 hq with rfl | hq2
      · exact absurd rfl he
      · exact ih q hq2

theorem lookup_summary_not_mem (raw : String → List SourceResult) :
    ∀ (queries : List String) (q : String), q ∉ queries →
      lookup_entry q (compare_vehicles raw queries).summary = none := by
  intro queries
  induction queries with
  | nil => intro q _; rfl
  | cons a t ih =>
    intro q hq
    have hne : a ≠ q := fun he => hq (he ▸ List.mem_cons_self a t)
    have hqt : q ∉ t := fun h2 => hq (List.mem_cons_of_mem a h2)
    have ht := ih q hqt
    simp only [compare_vehicles] at ht ⊢
    rw [List.filter_cons]
    by_cases hv : (search_all (raw a)).isEmpty
    · simp [hv, ht]
    · simp [hv, lookup_entry, hne, ht]

theorem lookup_summary_eq (raw : String → List SourceResult) :
    ∀ (queries : List String) (q : String), q ∈ queries →
      lookup_entry q (compare_vehicles raw queries).summary =
        if (search_all (raw q)).isEmpty then none
        else some (make_summary (search_all (raw q))) := by
  intro queries
  induction queries with
  | nil => intro q hq; cases hq
  | cons a t ih =>
    intro q hq
    simp only [compare_vehicles] at *
    rw [List.filter_cons]
    by_cases he : a = q
    · subst he
      by_cases hv : (search_all (raw a)).isEmpty
      · by_cases hat : a ∈ t
        · have := ih a hat
          simp [hv] at this ⊢
          exact this
        · have := lookup_summary_not_mem raw t a hat
          simp only [compare_vehicles] at this
          simp [hv] at this ⊢
          exact this
      · simp [hv, lookup_entry]
    · rcases List.mem_cons.1 hq with rfl | hq2
      · exact absurd rfl he
      · have := ih q hq2
        by_cases hv : (search_all (raw a)).isEmpty
        · simp [hv] at this ⊢
          exact this
        · simp [hv, lookup_entry, he] at this ⊢
          exact this

theorem decimal_value_one_nonneg {m e : ℤ} (hm : 0 ≤ m) : 0 ≤ decimal_value 1 m e := by
  unfold decimal_value
  split
  · have h1 : (0 : ℤ) ≤ 1 * m * 10 ^ (Int.toNat e) := by positivity
    exact_mod_cast h1
  · exact Rat.divInt_nonneg (by omega) (by positivity)


theorem parse_decimal_tail_one_nonneg (cs : List Char) :
    0 ≤ (parse_decimal_tail 1 cs).getD 0 := by
  unfold parse_decimal_tail
  dsimp only
  split
  · simp
  · split
    · apply decimal_value_one_nonneg
      exact Int.natCast_nonneg _
    · split
      · split
        · simp
        · apply decimal_value_one_nonneg
          exact Int.natCast_nonneg _
      · simp

theorem parse_decimal_nonneg (s : String) (h : s.data.head? ≠ some '-') :
    0 ≤ (parse_decimal s).getD 0 := by
  unfold parse_decimal
  split
  · exact parse_decimal_tail_one_nonneg _
  · next t heq => exact absurd (by rw [heq]; rfl) h
  · exact parse_decimal_tail_one_nonneg _

theorem ascii_lower_ne_minus {c : Char} (h : c ≠ '-') : ascii_lower c ≠ '-' := by
  unfold ascii_lower
  split
  all_goals first | decide | exact h

theorem mem_py_replace_empty_subset (pat : List Char) :
    ∀ (n : Nat) (s : List Char) (c : Char), c ∈ py_replace_aux pat [] n s → c ∈ s := by
  intro n
  induction n with
  | zero =>
    intro s c h
    cases s with
    | nil => exact absurd h (List.not_mem_nil c)
    | cons a t => exact h
  | succ n ih =>
    intro s c h
    cases s with
    | nil => exact absurd h (List.not_mem_nil c)
    | cons a t =>
      rw [py_replace_aux] at h
      split at h
      · have h2 := ih _ c (by simpa using h)
        exact List.drop_subset _ _ h2
      · rcases List.mem_cons.1 h with rfl | h2
        · exact List.mem_cons_self _ _
        · exact List.mem_cons_of_mem _ (ih t c h2)

theorem mem_py_strip_chars {l : List Char} {c : Char} (h : c ∈ py_strip_chars l) : c ∈ l := by
  unfold py_strip_chars at h
  have h1 := List.mem_reverse.1 h
  have h2 := (List.dropWhile_sublist _).subset h1
  have h3 := List.mem_reverse.1 h2
  exact (List.dropWhile_sublist _).subset h3

theorem clean_price_no_minus {s : String} (h : '-' ∉ s.data) :
    '-' ∉ (clean_price s).data := by
  unfold clean_price py_replace py_lower py_strip
  intro hc
  have h1 := mem_py_strip_chars hc
  have h2 := mem_py_replace_empty_subset _ _ _ _ h1
  have h3 := mem_py_replace_empty_subset _ _ _ _ h2
  have h4 := mem_py_replace_empty_subset _ _ _ _ h3
  have h5 := mem_py_replace_empty_subset _ _ _ _ h4
  rcases List.mem_map.1 h5 with ⟨c, hcmem, hceq⟩
  by_cases hcm : c = '-'
  · exact h (hcm ▸ hcmem)
  · exact ascii_lower_ne_minus hcm hceq

theorem parse_price_nonneg_of_no_minus {s : String} (h : '-' ∉ s.data) :
    0 ≤ parse_price s := by
  unfold parse_price
  apply parse_decimal_nonneg
  have hclean := clean_price_no_minus h
  intro hh
  apply hclean
  cases hd : (clean_price s).data with
  | nil => rw [hd] at hh; simp at hh
  | cons a t =>
    rw [hd] at hh
    simp at hh
    exact hh ▸ List.mem_cons_self a t

/-! ### The claims -/

/-- C1: if exactly one of the three source tasks raises or times out,
`search_all` returns the deduplicated, ranked union of the two remaining
sources (in source order), for every position of the failing source; the
failure never escapes (the model maps every outcome vector to a list). -/
theorem search_all_fault_isolation (e : String) (a b : List Listing) :
    search_all [Except.error e, Except.ok a, Except.ok b] =
        sort_vehicles (deduplicate_vehicles (a ++ b)) ∧
    search_all [Except.ok a, Except.error e, Except.ok b] =
        sort_vehicles (deduplicate_vehicles (a ++ b)) ∧
    search_all [Except.ok a, Except.ok b, Except.error e] =
        sort_vehicles (deduplicate_vehicles (a ++ b)) := by
  refine ⟨?_, ?_, ?_⟩ <;> simp [search_all, collect_results]

/-- C2 counterexample: deduplication does not keep the first occurrence of
every identity key — a key whose truncated price is `0` is dropped even at
its first occurrence, so the claim fails on a one-element list. -/
theorem dedup_first_occurrence_cex :
    deduplicate_vehicles [sample_listing "Toyota Aqua 2018" 0 2018 "Ikman"] = [] ∧
    sample_listing "Toyota Aqua 2018" 0 2018 "Ikman" ∉
      deduplicate_vehicles [sample_listing "Toyota Aqua 2018" 0 2018 "Ikman"] := by
  refine ⟨by decide, by decide⟩

/-- C2 amended: deduplication keeps exactly the first occurrence of each
identity key whose truncated price is positive; later listings with the
same key, and every listing whose key price is not positive, are dropped
(`spec_dedup` is this first-occurrence description, written independently
of the accumulator loop). -/
theorem dedup_eq_spec_dedup (L : List Listing) :
    deduplicate_vehicles L = spec_dedup L := by
  have h := dedup_go_eq_spec L []
  unfold deduplicate_vehicles
  rw [h]
  congr 1
  simp

/-- C3: no element of the deduplicated output has price `0`. -/
theorem dedup_price_ne_zero (L : List Listing) (v : Listing)
    (h : v ∈ deduplicate_vehicles L) : v.price ≠ 0 := by
  have hk : 0 < py_int v.price := mem_dedup_go_key_pos L [] v h
  have h1 : 1 ≤ v.price := py_int_pos_imp_one_le hk
  intro h0
  rw [h0] at h1
  norm_num at h1

/-- Witness for C3 at a concrete one-listing input. -/
theorem dedup_price_ne_zero_witness :
    (sample_listing "Toyota Aqua" 100 2018 "Riyasewana").price ≠ 0 :=
  dedup_price_ne_zero [sample_listing "Toyota Aqua" 100 2018 "Riyasewana"]
    (sample_listing "Toyota Aqua" 100 2018 "Riyasewana") (by decide)

/-- C4: the ranked output is ascending in price with ties broken by
descending year: adjacent pairs satisfy
`a.price < b.price ∨ (a.price = b.price ∧ a.year ≥ b.year)`. -/
theorem sort_vehicles_rank_order (L : List Listing) :
    List.Chain' (fun a b => a.price < b.price ∨ (a.price = b.price ∧ a.year ≥ b.year))
      (sort_vehicles L) := by
  have hs : List.Pairwise vehicle_le (sort_vehicles L) :=
    List.sorted_insertionSort vehicle_le L
  refine List.Chain'.imp ?_ (List.Pairwise.chain' hs)
  intro x y hxy
  have hxy2 : x.price < y.price ∨ (x.price = y.price ∧ -x.year ≤ -y.year) := hxy
  rcases hxy2 with h1 | ⟨h2, h3⟩
  · exact Or.inl h1
  · exact Or.inr ⟨h2, by omega⟩

/-- C6: price parsing strips the currency tokens and thousands separators
and parses the remainder as a decimal; unparsable input yields `0`.  In
particular the round-trip values of the spec hold, and the `rs`/`lkr`
tokens are stripped wherever they occur. -/
theorem parse_price_round_trip :
    parse_price "Rs. 4,500,000" = 4500000 ∧
    parse_price "garbage" = 0 ∧
    parse_price "LKR 1,250,000" = 1250000 ∧
    parse_price "rs 100" = 100 := by
  refine ⟨by decide, by decide, by decide, by decide⟩

/-- C9: deduplication is idempotent. -/
theorem dedup_idempotent (L : List Listing) :
    deduplicate_vehicles (deduplicate_vehicles L) = deduplicate_vehicles L :=
  dedup_go_idem L []

/-- C7 counterexample: the Standardizer does not guarantee a non-negative
price — raw price text `-5` standardizes to price `-5 < 0`. -/
theorem standardize_negative_price_cex :
    (standardize_vehicle { price := some "-5" }).price = -5 ∧
    ¬ 0 ≤ (standardize_vehicle { price := some "-5" }).price := by
  refine ⟨by decide, by decide⟩

/-- C7 amended: every Listing produced by the Standardizer from a raw
price string that contains no minus sign has price `≥ 0` (with `0`
denoting an unparsed price); a leading minus on the cleaned numeric text
is the only way to obtain a negative price. -/
theorem standardize_price_nonneg_of_no_minus (raw : RawListing)
    (h : '-' ∉ (raw.price.getD "").data) :
    0 ≤ (standardize_vehicle raw).price := by
  unfold standardize_vehicle
  exact parse_price_nonneg_of_no_minus h

/-- Witness for the amended C7 at a concrete raw listing. -/
theorem standardize_price_nonneg_witness :
    0 ≤ (standardize_vehicle { price := some "Rs. 4,500,000" }).price :=
  standardize_price_nonneg_of_no_minus { price := some "Rs. 4,500,000" } (by decide)

/-- C8 counterexample: model extraction does not remove every known make
case-insensitively — the code removes only the five (six for Ikman) exact
substrings, so the make `BMW` survives in the extracted model, while the
claim (all manufacturer names, case-insensitive) would remove it. -/
theorem extract_model_cex :
    riyasewana_extract_model "BMW 2015 320d" = "BMW  320d" ∧
    claim_extract_model "BMW 2015 320d" = "320d" ∧
    riyasewana_extract_model "BMW 2015 320d" ≠ claim_extract_model "BMW 2015 320d" := by
  refine ⟨by decide, by decide, by decide⟩

/-- C8 amended: the extracted model equals the title with the exact,
case-sensitive substrings Toyota, Honda, Nissan, Suzuki, Mitsubishi (plus
Mazda for the Ikman source) removed in that order, then any word-bounded
4-digit year beginning 19 or 20 removed, then trimmed. -/
theorem extract_model_amended (title : String) :
    riyasewana_extract_model title = amended_riyasewana_model title ∧
    ikman_extract_model title = amended_ikman_model title :=
  ⟨rfl, rfl⟩

/-- C10: every listing surviving deduplication (hence appearing in the
`search_all` output) has truncated price at least `1`, hence price at
least `1` — no listing with price in `(0,1)` or negative ever appears —
even though the Standardizer itself can produce such prices (`0.5` and
`-5` below). -/
theorem search_all_truncated_price_bounds :
    (∀ (results : List SourceResult) (v : Listing), v ∈ search_all results →
        1 ≤ py_int v.price ∧ 1 ≤ v.price) ∧
    (standardize_vehicle { price := some "0.5" }).price = Rat.divInt 1 2 ∧
    (standardize_vehicle { price := some "-5" }).price = -5 := by
  refine ⟨?_, by decide, by decide⟩
  intro results v h
  have hk : 0 < py_int v.price := mem_search_all_key_pos h
  exact ⟨by omega, py_int_pos_imp_one_le hk⟩

/-- Witness for C10 at a concrete outcome vector. -/
theorem search_all_truncated_price_bounds_witness :
    1 ≤ py_int (sample_listing "Honda Fit GP5" 250 2015 "Patpat").price ∧
    1 ≤ (sample_listing "Honda Fit GP5" 250 2015 "Patpat").price :=
  search_all_truncated_price_bounds.1
    [Except.ok [sample_listing "Honda Fit GP5" 250 2015 "Patpat"]]
    (sample_listing "Honda Fit GP5" 250 2015 "Patpat") (by decide)

/-- C5: for every query list, a query has a summary entry iff its
`search_all` result contains a priced listing (equivalently here: is
non-empty); the entry counts all listings, its price statistics over the
priced subset satisfy `min ≤ avg ≤ max`, and its sources are the
non-empty set of distinct sources of the listings; a query with zero
listings gets no summary entry, only its recorded empty listing list. -/
theorem compare_vehicles_summary_spec
    (raw : String → List SourceResult) (queries : List String) (q : String)
    (hq : q ∈ queries) :
    lookup_entry q (compare_vehicles raw queries).vehicles = some (search_all (raw q)) ∧
    ((lookup_entry q (compare_vehicles raw queries).summary).isSome ↔
      ∃ v ∈ search_all (raw q), 0 < v.price) ∧
    (search_all (raw q) = [] →
      lookup_entry q (compare_vehicles raw queries).summary = none) ∧
    ∀ s, lookup_entry q (compare_vehicles raw queries).summary = some s →
      s.count = (search_all (raw q)).length ∧
      s.min_price ≤ s.avg_price ∧ s.avg_price ≤ s.max_price ∧
      s.sources ≠ [] ∧ s.sources.Nodup ∧
      ∀ src, src ∈ s.sources ↔ src ∈ (search_all (raw q)).map Listing.source := by
  have hpos : ∀ v ∈ search_all (raw q), 0 < v.price := by
    intro v hv
    have hk : 0 < py_int v.price := mem_search_all_key_pos hv
    have h1 := py_int_pos_imp_one_le hk
    linarith
  have hlook := lookup_summary_eq raw queries q hq
  refine ⟨lookup_compare_vehicles raw queries q hq, ?_, ?_, ?_⟩
  · constructor
    · intro hsome
      rw [hlook] at hsome
      by_cases hemp : (search_all (raw q)).isEmpty
      · rw [if_pos hemp] at hsome; simp at hsome
      · have hne : search_all (raw q) ≠ [] := by
          simpa [List.isEmpty_iff] using hemp
        obtain ⟨v, hv⟩ := List.exists_mem_of_ne_nil _ hne
        exact ⟨v, hv, hpos v hv⟩
    · rintro ⟨v, hv, _⟩
      have hne : search_all (raw q) ≠ [] := List.ne_nil_of_mem hv
      rw [hlook, if_neg (by simpa [List.isEmpty_iff] using hne)]
      rfl
  · intro hnil
    rw [hlook, if_pos (by simp [hnil])]
  · intro s hs
    rw [hlook] at hs
    by_cases hemp : (search_all (raw q)).isEmpty
    · rw [if_pos hemp] at hs; cases hs
    · rw [if_neg hemp] at hs
      have hne : search_all (raw q) ≠ [] := by
        simpa [List.isEmpty_iff] using hemp
      obtain rfl : make_summary (search_all (raw q)) = s := Option.some.inj hs
      have hfil : (search_all (raw q)).filter (fun v => 0 < v.price) = search_all (raw q) :=
        List.filter_eq_self.2 (fun v hv => by simpa using hpos v hv)
      have hprne : ((search_all (raw q)).filter (fun v => 0 < v.price)).map Listing.price ≠ [] := by
        rw [hfil]
        simpa using hne
      refine ⟨rfl, ?_, ?_, ?_, List.nodup_dedup _, fun src => List.mem_dedup⟩
      · show min_list _ ≤ _
        simp only [make_summary, List.isEmpty_iff, if_neg hprne]
        exact min_list_le_avg hprne
      · show _ ≤ max_list _
        simp only [make_summary, List.isEmpty_iff, if_neg hprne]
        exact avg_le_max_list hprne
      · obtain ⟨v, hv⟩ := List.exists_mem_of_ne_nil _ hne
        have : v.source ∈ ((search_all (raw q)).map Listing.source).dedup :=
          List.mem_dedup.2 (List.mem_map_of_mem Listing.source hv)
        exact List.ne_nil_of_mem this

/-- Witness for C5 at a concrete single-query comparison. -/
theorem compare_vehicles_summary_spec_witness :
    lookup_entry "toyota aqua"
        (compare_vehicles (fun _ => [Except.ok [sample_listing "Toyota Aqua" 100 2018 "Riyasewana"]])
          ["toyota aqua"]).vehicles =
      some (search_all [Except.ok [sample_listing "Toyota Aqua" 100 2018 "Riyasewana"]]) ∧
    ((lookup_entry "toyota aqua"
        (compare_vehicles (fun _ => [Except.ok [sample_listing "Toyota Aqua" 100 2018 "Riyasewana"]])
          ["toyota aqua"]).summary).isSome ↔
      ∃ v ∈ search_all [Except.ok [sample_listing "Toyota Aqua" 100 2018 "Riyasewana"]], 0 < v.price) ∧
    (search_all [Except.ok [sample_listing "Toyota Aqua" 100 2018 "Riyasewana"]] = [] →
      lookup_entry "toyota aqua"
        (compare_vehicles (fun _ => [Except.ok [sample_listing "Toyota Aqua" 100 2018 "Riyasewana"]])
          ["toyota aqua"]).summary = none) ∧
    ∀ s, lookup_entry "toyota aqua"
        (compare_vehicles (fun _ => [Except.ok [sample_listing "Toyota Aqua" 100 2018 "Riyasewana"]])
          ["toyota aqua"]).summary = some s →
      s.count = (search_all [Except.ok [sample_listing "Toyota Aqua" 100 2018 "Riyasewana"]]).length ∧
      s.min_price ≤ s.avg_price ∧ s.avg_price ≤ s.max_price ∧
      s.sources ≠ [] ∧ s.sources.Nodup ∧
      ∀ src, src ∈ s.sources ↔
        src ∈ (search_all [Except.ok [sample_listing "Toyota Aqua" 100 2018 "Riyasewana"]]).map
          Listing.source :=
  compare_vehicles_summary_spec
    (fun _ => [Except.ok [sample_listing "Toyota Aqua" 100 2018 "Riyasewana"]])
    ["toyota aqua"] "toyota aqua" (by decide)
